import Mathlib

/-!
Verification development for the security log processor
(src/security_processor.py of the i4ops-dashboard repository).

The Python module classifies free-text log lines with a fixed registry of
compiled regular expressions (evaluated with `re.search` under `re.I`),
derives a severity and a metadata mapping from the first match, and
aggregates batches of classified events into threats and recommendations.

The embedding below models:
  * the subset of Python regular-expression syntax used by the nine
    patterns of `SecurityProcessor.__init__` (case-insensitive literals,
    the classes backslash-d, backslash-w, backslash-s, their complements,
    dot, greedy star / plus / option, alternation preferring the left
    branch, numbered capture groups), with the backtracking priority of
    Python's engine: leftmost start position first, then greedy /
    left-biased alternatives;
  * `str.strip`, `str.split(sep, maxsplit)`, `str.lower`, substring
    containment, and `datetime.strptime` for the fixed format
    `%Y-%m-%d %H:%M:%S` (ASCII data, as in all inputs of this system);
  * `parse_log_line`, `_get_severity`, `_extract_metadata` and
    `analyze_events`.
Python dictionaries iterate in insertion order; they are modelled as
association lists kept in insertion order.
-/

/-- ASCII whitespace: the characters matched by the Python class
backslash-s and stripped by `str.strip` (ASCII fragment). -/
def isPySpace (c : Char) : Bool :=
  c == ' ' || c == '\t' || c == '\n' || c == '\r' ||
    c == Char.ofNat 11 || c == Char.ofNat 12

/-- ASCII lower-casing of one character, as `str.lower` does on ASCII. -/
def lowerChar (c : Char) : Char :=
  if 65 ≤ c.toNat && c.toNat ≤ 90 then Char.ofNat (c.toNat + 32) else c

/-- `str.lower` on ASCII text. -/
def pyLower (s : List Char) : List Char := s.map lowerChar

/-- The character classes occurring in the nine patterns. -/
inductive CharCls where
  | dot       -- any character but a newline (re.DOTALL is not set)
  | digit     -- backslash-d
  | word      -- backslash-w
  | space     -- backslash-s
  | nspace    -- [^ backslash-s ]
  | nrparen   -- [^)]
  | digitDot  -- [ backslash-d . ]
deriving DecidableEq, Repr

def clsMem : CharCls → Char → Bool
  | .dot, c => c != '\n'
  | .digit, c => c.isDigit
  | .word, c => c.isAlphanum || c == '_'
  | .space, c => isPySpace c
  | .nspace, c => !isPySpace c
  | .nrparen, c => c != ')'
  | .digitDot, c => c.isDigit || c == '.'

/-- The regular-expression fragment used by the pattern registry.
Quantifiers apply to single character classes only, which is all the
nine source patterns need. -/
inductive RE where
  | eps
  | lit (c : Char)
  | cls (cc : CharCls)
  | seq (a b : RE)
  | alt (a b : RE)
  | star (cc : CharCls)
  | plus (cc : CharCls)
  | opt (a : RE)
  | grp (n : Nat) (a : RE)
deriving DecidableEq, Repr

/-- Capture-group records: group number paired with the captured text. -/
abbrev GroupMap := List (Nat × List Char)

/-- Greedy Kleene star over a character predicate, in continuation-passing
style: the longest run is tried first, exactly as Python's greedy `*`. -/
def starRun (p : Char → Bool) : List Char → (List Char → Option GroupMap) →
    Option GroupMap
  | [], k => k []
  | c :: cs, k =>
    if p c then
      match starRun p cs k with
      | some r => some r
      | none => k (c :: cs)
    else k (c :: cs)

/-- Backtracking matcher in continuation-passing style.  `reMatch r s k g`
tries to match `r` at the beginning of `s`; on each candidate way of
matching it calls `k` with the remaining input and the capture records
accumulated so far (innermost record first).  Alternation prefers the left
branch and quantifiers are greedy, mirroring Python's engine.  All
literals compare case-insensitively because every source pattern is
compiled with `re.I`. -/
def reMatch : RE → List Char → (List Char → GroupMap → Option GroupMap) →
    GroupMap → Option GroupMap
  | .eps, s, k, g => k s g
  | .lit c, s, k, g =>
    match s with
    | [] => none
    | c1 :: s1 => if lowerChar c1 == lowerChar c then k s1 g else none
  | .cls cc, s, k, g =>
    match s with
    | [] => none
    | c1 :: s1 => if clsMem cc c1 then k s1 g else none
  | .seq a b, s, k, g => reMatch a s (fun s1 g1 => reMatch b s1 k g1) g
  | .alt a b, s, k, g =>
    match reMatch a s k g with
    | some r => some r
    | none => reMatch b s k g
  | .star cc, s, k, g => starRun (clsMem cc) s (fun s1 => k s1 g)
  | .plus cc, s, k, g =>
    match s with
    | [] => none
    | c1 :: s1 =>
      if clsMem cc c1 then starRun (clsMem cc) s1 (fun s2 => k s2 g) else none
  | .opt a, s, k, g =>
    match reMatch a s k g with
    | some r => some r
    | none => k s g
  | .grp n a, s, k, g =>
    reMatch a s (fun s1 g1 => k s1 ((n, s.take (s.length - s1.length)) :: g1)) g

/-- `re.search`: try the pattern at every start position from the left,
returning the capture records of the first successful position. -/
def reSearch (r : RE) : List Char → Option GroupMap
  | [] =>
    match reMatch r [] (fun _ g => some g) [] with
    | some g => some g
    | none => none
  | c :: cs =>
    match reMatch r (c :: cs) (fun _ g => some g) [] with
    | some g => some g
    | none => reSearch r cs

/-- Value of capture group `n` (first record wins; every group of the nine
patterns is recorded exactly once per successful match). -/
def groupVal (g : GroupMap) (n : Nat) : List Char :=
  match g.find? (fun p => p.1 == n) with
  | some p => p.2
  | none => []

/-- `match.groups()` for a pattern with `n` capture groups. -/
def groupStrs (n : Nat) (g : GroupMap) : List String :=
  (List.range n).map (fun i => String.mk (groupVal g (i + 1)))

/-- A sequence of case-insensitive literal characters. -/
def lits (t : String) : RE :=
  t.data.foldr (fun c r => RE.seq (.lit c) r) .eps

/-- Right-nested sequencing of a pattern list. -/
def seqs : List RE → RE
  | [] => .eps
  | [r] => r
  | r :: rs => .seq r (seqs rs)

/-! The nine compiled patterns of `SecurityProcessor.__init__`, in source
order.  Each is paired below with its number of capture groups. -/

/-- EGRESS pattern:
`kernel:.*egress\s*\(\d+\)\s*pid\s+(\d+)\s+read\s+([^\s]+|\([^)]+\))\s+write\s+([^\s]*)\s+uid\s+(\d+)\s+gid\s+(\d+)` -/
def P_egress : RE :=
  seqs [lits "kernel:", .star .dot, lits "egress", .star .space,
    .lit '(', .plus .digit, .lit ')', .star .space,
    lits "pid", .plus .space, .grp 1 (.plus .digit), .plus .space,
    lits "read", .plus .space,
    .grp 2 (.alt (.plus .nspace) (seqs [.lit '(', .plus .nrparen, .lit ')'])),
    .plus .space, lits "write", .plus .space, .grp 3 (.star .nspace),
    .plus .space, lits "uid", .plus .space, .grp 4 (.plus .digit),
    .plus .space, lits "gid", .plus .space, .grp 5 (.plus .digit)]

/-- BRUTE_FORCE pattern 1:
`sshd\[\d+\]:\s*Failed\s+password\s+for\s+(?:invalid\s+user\s+)?(\w+)\s+from\s+([\d.]+)` -/
def P_bf1 : RE :=
  seqs [lits "sshd[", .plus .digit, lits "]:", .star .space,
    lits "Failed", .plus .space, lits "password", .plus .space,
    lits "for", .plus .space,
    .opt (seqs [lits "invalid", .plus .space, lits "user", .plus .space]),
    .grp 1 (.plus .word), .plus .space, lits "from", .plus .space,
    .grp 2 (.plus .digitDot)]

/-- BRUTE_FORCE pattern 2:
`sshd\[\d+\]:\s*Invalid\s+user\s+(\w+)\s+from\s+([\d.]+)` -/
def P_bf2 : RE :=
  seqs [lits "sshd[", .plus .digit, lits "]:", .star .space,
    lits "Invalid", .plus .space, lits "user", .plus .space,
    .grp 1 (.plus .word), .plus .space, lits "from", .plus .space,
    .grp 2 (.plus .digitDot)]

/-- BRUTE_FORCE pattern 3:
`sudo:.*user\s+NOT\s+in\s+sudoers.*USER=(\w+).*COMMAND=(.+)` -/
def P_bf3 : RE :=
  seqs [lits "sudo:", .star .dot, lits "user", .plus .space,
    lits "NOT", .plus .space, lits "in", .plus .space, lits "sudoers",
    .star .dot, lits "USER=", .grp 1 (.plus .word),
    .star .dot, lits "COMMAND=", .grp 2 (.plus .dot)]

/-- SUDO pattern 1:
`sudo:\s*(\w+)\s*:.*TTY=.*USER=(\w+)\s+COMMAND=(.+)` -/
def P_sudo1 : RE :=
  seqs [lits "sudo:", .star .space, .grp 1 (.plus .word), .star .space,
    .lit ':', .star .dot, lits "TTY=", .star .dot, lits "USER=",
    .grp 2 (.plus .word), .plus .space, lits "COMMAND=", .grp 3 (.plus .dot)]

/-- SUDO pattern 2 (PAM session):
`sudo:\s*pam_unix\(sudo:session\):\s*session\s+(opened|closed)\s+for\s+user\s+(\w+)` -/
def P_sudo2 : RE :=
  seqs [lits "sudo:", .star .space, lits "pam_unix(sudo:session):",
    .star .space, lits "session", .plus .space,
    .grp 1 (.alt (lits "opened") (lits "closed")), .plus .space,
    lits "for", .plus .space, lits "user", .plus .space,
    .grp 2 (.plus .word)]

/-- SUDO pattern 3:
`su:\s*pam_unix\(su:session\):\s*session\s+opened\s+for\s+user\s+(\w+).*by\s+(\w+)` -/
def P_sudo3 : RE :=
  seqs [lits "su:", .star .space, lits "pam_unix(su:session):",
    .star .space, lits "session", .plus .space, lits "opened", .plus .space,
    lits "for", .plus .space, lits "user", .plus .space,
    .grp 1 (.plus .word), .star .dot, lits "by", .plus .space,
    .grp 2 (.plus .word)]

/-- OOM_KILL pattern 1:
`kernel:.*Out\s+of\s+memory:\s*Kill\s+process\s+(\d+)\s*\(([^)]+)\)` -/
def P_oom1 : RE :=
  seqs [lits "kernel:", .star .dot, lits "Out", .plus .space, lits "of",
    .plus .space, lits "memory:", .star .space, lits "Kill", .plus .space,
    lits "process", .plus .space, .grp 1 (.plus .digit), .star .space,
    .lit '(', .grp 2 (.plus .nrparen), .lit ')']

/-- OOM_KILL pattern 2:
`kernel:.*oom-kill:.*killed\s+process\s+(\d+)` -/
def P_oom2 : RE :=
  seqs [lits "kernel:", .star .dot, lits "oom-kill:", .star .dot,
    lits "killed", .plus .space, lits "process", .plus .space,
    .grp 1 (.plus .digit)]

/-! ## Enumerations and the event record (`SecuritySeverity`, `SecurityRule`,
`SecurityEvent`) -/

inductive SecuritySeverity where
  | CRITICAL
  | HIGH
  | MEDIUM
  | LOW
deriving DecidableEq, Repr

def SecuritySeverity.value : SecuritySeverity → String
  | .CRITICAL => "critical"
  | .HIGH => "high"
  | .MEDIUM => "medium"
  | .LOW => "low"

inductive SecurityRule where
  | EGRESS
  | BRUTE_FORCE
  | SUDO
  | OOM_KILL
  | OTHER
deriving DecidableEq, Repr

def SecurityRule.value : SecurityRule → String
  | .EGRESS => "egress"
  | .BRUTE_FORCE => "brute_force"
  | .SUDO => "sudo"
  | .OOM_KILL => "oom_kill"
  | .OTHER => "other"

/-- A `datetime` value as far as this program observes it. -/
structure PyDateTime where
  year : Nat
  month : Nat
  day : Nat
  hour : Nat
  minute : Nat
  second : Nat
deriving DecidableEq, Repr

/-- The `SecurityEvent` dataclass.  `metadata` is a Python dict, modelled
as an association list in insertion order with unique keys. -/
structure SecurityEvent where
  vm_name : String
  timestamp : PyDateTime
  source : String
  message : String
  severity : SecuritySeverity
  rule : SecurityRule
  metadata : List (String × String)
deriving DecidableEq, Repr

/-! ## Python string primitives: `strip`, `split(sep, maxsplit)`, dict get -/

/-- `str.strip()` (ASCII whitespace). -/
def pyStrip (s : List Char) : List Char :=
  ((s.dropWhile isPySpace).reverse.dropWhile isPySpace).reverse

/-- Split at the first occurrence of `sep`, returning the text before it
and the text after it, or `none` when `sep` does not occur. -/
def splitFirst (sep : List Char) : List Char → Option (List Char × List Char)
  | [] => none
  | c :: cs =>
    if sep.isPrefixOf (c :: cs) then some ([], (c :: cs).drop sep.length)
    else
      match splitFirst sep cs with
      | some (a, b) => some (c :: a, b)
      | none => none

/-- `str.split(sep, maxsplit)`: at most `n` splits at non-overlapping
occurrences of `sep`, left to right; the final field keeps the rest. -/
def pysplit (sep : List Char) : Nat → List Char → List (List Char)
  | 0, s => [s]
  | n + 1, s =>
    match splitFirst sep s with
    | none => [s]
    | some (a, b) => a :: pysplit sep n b

/-- `dict.get(key)` on an association list. -/
def mget (m : List (String × String)) (key : String) : Option String :=
  (m.find? (fun p => p.1 == key)).map (fun p => p.2)

/-! ## `datetime.strptime` for the fixed format of `parse_log_line`

CPython translates the format into a regular expression whose directives
are `%Y ~ dddd`, `%m ~ 1[0-2]|0[1-9]|[1-9]`, `%d ~ 3[01]|[12]d|0[1-9]|[1-9]`,
`%H ~ 2[0-3]|[0-1]d|d`, `%M ~ [0-5]d|d`, `%S ~ 6[0-1]|[0-5]d|d`, a blank in
the format matching one or more whitespace characters, anchored at the
start, with any unconverted trailing data an error; the matched fields
must then form a valid `datetime` (else `ValueError`, which
`parse_log_line` turns into the wall-clock fallback). -/

def dval (c : Char) : Nat := c.toNat - 48

def parseY4 : List Char → Option (Nat × List Char)
  | a :: b :: c :: d :: r =>
    if a.isDigit && b.isDigit && c.isDigit && d.isDigit then
      some (1000 * dval a + 100 * dval b + 10 * dval c + dval d, r)
    else none
  | _ => none

/-- Alternatives of the month directive, in the order Python tries them. -/
def candsMonth : List Char → List (Nat × List Char)
  | a :: b :: r =>
    (if a = '1' ∧ '0' ≤ b ∧ b ≤ '2' then [(10 + dval b, r)] else []) ++
    (if a = '0' ∧ '1' ≤ b ∧ b ≤ '9' then [(dval b, r)] else []) ++
    (if '1' ≤ a ∧ a ≤ '9' then [(dval a, b :: r)] else [])
  | [a] => if '1' ≤ a ∧ a ≤ '9' then [(dval a, [])] else []
  | [] => []

/-- Alternatives of the day directive. -/
def candsDay : List Char → List (Nat × List Char)
  | a :: b :: r =>
    (if a = '3' ∧ '0' ≤ b ∧ b ≤ '1' then [(30 + dval b, r)] else []) ++
    (if '1' ≤ a ∧ a ≤ '2' ∧ b.isDigit then [(10 * dval a + dval b, r)] else []) ++
    (if a = '0' ∧ '1' ≤ b ∧ b ≤ '9' then [(dval b, r)] else []) ++
    (if '1' ≤ a ∧ a ≤ '9' then [(dval a, b :: r)] else [])
  | [a] => if '1' ≤ a ∧ a ≤ '9' then [(dval a, [])] else []
  | [] => []

/-- Alternatives of the hour directive. -/
def candsHour : List Char → List (Nat × List Char)
  | a :: b :: r =>
    (if a = '2' ∧ '0' ≤ b ∧ b ≤ '3' then [(20 + dval b, r)] else []) ++
    (if '0' ≤ a ∧ a ≤ '1' ∧ b.isDigit then [(10 * dval a + dval b, r)] else []) ++
    (if a.isDigit then [(dval a, b :: r)] else [])
  | [a] => if a.isDigit then [(dval a, [])] else []
  | [] => []

/-- Alternatives of the minute directive. -/
def candsMin : List Char → List (Nat × List Char)
  | a :: b :: r =>
    (if '0' ≤ a ∧ a ≤ '5' ∧ b.isDigit then [(10 * dval a + dval b, r)] else []) ++
    (if a.isDigit then [(dval a, b :: r)] else [])
  | [a] => if a.isDigit then [(dval a, [])] else []
  | [] => []

/-- Alternatives of the second directive (leap seconds 60 and 61 pass the
regular expression but are rejected by the `datetime` constructor). -/
def candsSec : List Char → List (Nat × List Char)
  | a :: b :: r =>
    (if a = '6' ∧ '0' ≤ b ∧ b ≤ '1' then [(60 + dval b, r)] else []) ++
    (if '0' ≤ a ∧ a ≤ '5' ∧ b.isDigit then [(10 * dval a + dval b, r)] else []) ++
    (if a.isDigit then [(dval a, b :: r)] else [])
  | [a] => if a.isDigit then [(dval a, [])] else []
  | [] => []

/-- Try candidate parses in order until the continuation succeeds. -/
def tryCands {α : Type} (cs : List (Nat × List Char))
    (k : Nat → List Char → Option α) : Option α :=
  match cs with
  | [] => none
  | (v, r) :: rest =>
    match k v r with
    | some x => some x
    | none => tryCands rest k

def expectChar (c : Char) : List Char → Option (List Char)
  | [] => none
  | a :: r => if a = c then some r else none

/-- One or more whitespace characters (a blank in a strptime format). -/
def expectWs1 : List Char → Option (List Char)
  | [] => none
  | a :: r => if isPySpace a then some (r.dropWhile isPySpace) else none

def isLeapYear (y : Nat) : Bool :=
  (y % 4 == 0 && y % 100 != 0) || y % 400 == 0

def daysInMonth (y m : Nat) : Nat :=
  if m = 2 then (if isLeapYear y then 29 else 28)
  else if m = 4 ∨ m = 6 ∨ m = 9 ∨ m = 11 then 30
  else 31

/-- `datetime.strptime(s, the Y-m-d H:M:S format)`, `none` on `ValueError`. -/
def strptimeYmdHMS (s : List Char) : Option PyDateTime :=
  match parseY4 s with
  | none => none
  | some (y, r1) =>
    match expectChar '-' r1 with
    | none => none
    | some r2 =>
      tryCands (candsMonth r2) (fun mo r3 =>
        match expectChar '-' r3 with
        | none => none
        | some r4 =>
          tryCands (candsDay r4) (fun d r5 =>
            match expectWs1 r5 with
            | none => none
            | some r6 =>
              tryCands (candsHour r6) (fun h r7 =>
                match expectChar ':' r7 with
                | none => none
                | some r8 =>
                  tryCands (candsMin r8) (fun mi r9 =>
                    match expectChar ':' r9 with
                    | none => none
                    | some r10 =>
                      tryCands (candsSec r10) (fun sec r11 =>
                        if r11 = [] ∧ 1 ≤ y ∧ d ≤ daysInMonth y mo ∧ sec ≤ 59
                        then some ⟨y, mo, d, h, mi, sec⟩
                        else none)))))

/-! ## The pattern registry and the classification pipeline -/

/-- `self.patterns`: rules in insertion order, each with its ordered
pattern list; every pattern is paired with its number of capture groups. -/
def patterns : List (SecurityRule × List (RE × Nat)) :=
  [(.EGRESS, [(P_egress, 5)]),
   (.BRUTE_FORCE, [(P_bf1, 2), (P_bf2, 2), (P_bf3, 2)]),
   (.SUDO, [(P_sudo1, 3), (P_sudo2, 2), (P_sudo3, 2)]),
   (.OOM_KILL, [(P_oom1, 2), (P_oom2, 1)])]

/-- Inner loop of `parse_log_line`: first matching pattern of one rule. -/
def tryPats (msg : List Char) : List (RE × Nat) → Option (List String)
  | [] => none
  | (p, n) :: ps =>
    match reSearch p msg with
    | some g => some (groupStrs n g)
    | none => tryPats msg ps

/-- Outer loop of `parse_log_line` over an ordered rule list. -/
def scanRules (msg : List Char) :
    List (SecurityRule × List (RE × Nat)) → Option (SecurityRule × List String)
  | [] => none
  | (rule, ps) :: rest =>
    match tryPats msg ps with
    | some gs => some (rule, gs)
    | none => scanRules msg rest

/-- The registry match: first rule in fixed order, first pattern in
declaration order. -/
def registry_match (msg : List Char) : Option (SecurityRule × List String) :=
  scanRules msg patterns

/-- Python substring containment `sub in s`. -/
def containsSub (sub : List Char) : List Char → Bool
  | [] => sub.isEmpty
  | c :: cs => sub.isPrefixOf (c :: cs) || containsSub sub cs

def sensitive_exts : List String := [".csv", ".zip", ".sql", ".key", ".pem"]

/-- `SecurityProcessor._get_severity`. -/
def get_severity (rule : SecurityRule) (gs : List String)
    (message : List Char) : SecuritySeverity :=
  match rule with
  | .EGRESS =>
    let read_file := if 1 < gs.length then (gs.getD 1 "").data else []
    if sensitive_exts.any (fun e => containsSub e.data (pyLower read_file)) then
      .CRITICAL
    else .HIGH
  | .BRUTE_FORCE => .HIGH
  | .SUDO =>
    if (containsSub "USER=root".data message) ||
        (containsSub "session opened for user root".data message) then .HIGH
    else .MEDIUM
  | .OOM_KILL => .MEDIUM
  | .OTHER => .LOW

/-- `SecurityProcessor._extract_metadata` (its `message` argument is
unused in the source). -/
def extract_metadata (rule : SecurityRule) (gs : List String) :
    List (String × String) :=
  match rule with
  | .EGRESS =>
    if 5 ≤ gs.length then
      [("pid", gs.getD 0 ""), ("read_file", gs.getD 1 ""),
       ("write_dest", gs.getD 2 ""), ("uid", gs.getD 3 ""),
       ("gid", gs.getD 4 "")]
    else []
  | .BRUTE_FORCE =>
    if 2 ≤ gs.length then
      [("username", gs.getD 0 ""), ("source_ip", gs.getD 1 "")]
    else []
  | .SUDO =>
    if 1 ≤ gs.length then
      if 3 ≤ gs.length then
        [("user", gs.getD 0 ""), ("command", gs.getD 2 "")]
      else [("user", gs.getD 0 "")]
    else []
  | .OOM_KILL => []
  | .OTHER => []

/-- The delimiter `" | "` of the custom log format. -/
def sepChars : List Char := [' ', '|', ' ']

/-- `SecurityProcessor.parse_log_line`.  `now` is the wall-clock value
`datetime.now()` would return, passed in explicitly. -/
def parse_log_line (now : PyDateTime) (line : String) : Option SecurityEvent :=
  let stripped := pyStrip line.data
  if stripped = [] then none
  else
    match pysplit sepChars 3 stripped with
    | [ts, vm, src, msg] =>
      match registry_match msg with
      | some (rule, gs) =>
        some { vm_name := String.mk vm,
               timestamp := (strptimeYmdHMS ts).getD now,
               source := String.mk src,
               message := String.mk stripped,
               severity := get_severity rule gs msg,
               rule := rule,
               metadata := extract_metadata rule gs }
      | none => none
    | _ => none

/-! ## `SecurityProcessor.analyze_events`

The Python loop fills several `defaultdict(int)` accumulators and one
list while walking the batch once; each accumulator is modelled as its
own left fold, preserving first-occurrence (insertion) order. -/

/-- `defaultdict(int)` increment, keeping insertion order. -/
def bump (m : List (String × Nat)) (key : String) : List (String × Nat) :=
  if m.any (fun p => p.1 == key) then
    m.map (fun p => if p.1 == key then (p.1, p.2 + 1) else p)
  else m ++ [(key, 1)]

/-- Counter lookup with the `defaultdict` default 0. -/
def lookupCount (m : List (String × Nat)) (key : String) : Nat :=
  match m.find? (fun p => p.1 == key) with
  | some p => p.2
  | none => 0

def severity_breakdown_of (events : List SecurityEvent) : List (String × Nat) :=
  events.foldl (fun m e => bump m e.severity.value) []

def rule_breakdown_of (events : List SecurityEvent) : List (String × Nat) :=
  events.foldl (fun m e => bump m e.rule.value) []

/-- The `ip_failures` accumulator: per-IP count over brute-force events
with a truthy metadata and a truthy `source_ip`. -/
def ip_failures (events : List SecurityEvent) : List (String × Nat) :=
  events.foldl (fun m e =>
    if e.rule = .BRUTE_FORCE ∧ e.metadata ≠ [] then
      match mget e.metadata "source_ip" with
      | some ip => if ip ≠ "" then bump m ip else m
      | none => m
    else m) []

/-- The `user_sudo_attempts` accumulator. -/
def user_sudo_attempts (events : List SecurityEvent) : List (String × Nat) :=
  events.foldl (fun m e =>
    if e.rule = .SUDO ∧ e.metadata ≠ [] then
      match mget e.metadata "user" with
      | some u => if u ≠ "" then bump m u else m
      | none => m
    else m) []

/-- The `egress_files` accumulator (keeps duplicates, as the source does). -/
def egress_files (events : List SecurityEvent) : List String :=
  events.foldl (fun l e =>
    if e.rule = .EGRESS ∧ e.metadata ≠ [] then
      match mget e.metadata "read_file" with
      | some rf => if rf ≠ "" ∧ rf ≠ "(null)" then l ++ [rf] else l
      | none => l
    else l) []

def bf_threat_line (ip : String) (count : Nat) : String :=
  "Brute force attack from " ++ ip ++ ": " ++ toString count ++
    " failed attempts"

def sudo_threat_line (user : String) (count : Nat) : String :=
  "Excessive sudo usage by " ++ user ++ ": " ++ toString count ++ " attempts"

def exfil_threat_line (n : Nat) : String :=
  "Data exfiltration detected: " ++ toString n ++ " unique files accessed"

/-- The `threats` list of `analyze_events`, in emission order. -/
def threats_of (events : List SecurityEvent) : List String :=
  ((ip_failures events).filter (fun p => 5 < p.2)).map
      (fun p => bf_threat_line p.1 p.2) ++
  ((user_sudo_attempts events).filter (fun p => 10 < p.2)).map
      (fun p => sudo_threat_line p.1 p.2) ++
  (if egress_files events ≠ [] then
     [exfil_threat_line (egress_files events).eraseDups.length]
   else [])

/-- The `recommendations` list of `analyze_events`, in emission order. -/
def recommendations_of (events : List SecurityEvent) : List String :=
  (if 0 < lookupCount (severity_breakdown_of events) "critical" then
     ["Immediate investigation required for critical events"]
   else []) ++
  (if 3 < (ip_failures events).length then
     ["Consider implementing IP-based rate limiting"]
   else []) ++
  (if egress_files events ≠ [] then
     ["Review file access permissions and implement DLP controls"]
   else [])

structure Analysis where
  total_events : Nat
  severity_breakdown : List (String × Nat)
  rule_breakdown : List (String × Nat)
  threats : List String
  recommendations : List String
deriving DecidableEq, Repr

/-- `SecurityProcessor.analyze_events`. -/
def analyze_events (events : List SecurityEvent) : Analysis :=
  { total_events := events.length,
    severity_breakdown := severity_breakdown_of events,
    rule_breakdown := rule_breakdown_of events,
    threats := threats_of events,
    recommendations := recommendations_of events }

/-! ## Concrete fixtures used by witnesses and counterexamples -/

/-- A fixed wall-clock instant standing in for `datetime.now()`. -/
def now0 : PyDateTime := ⟨2025, 1, 2, 3, 4, 5⟩

/-- A second, different wall-clock instant. -/
def now1 : PyDateTime := ⟨2026, 6, 7, 8, 9, 10⟩

/-- The canonical brute-force line from the specification. -/
def bf_log_line : String :=
  "2024-01-01 00:00:00 | u2-vm30000 | auth.log | sshd[123]: Failed password for invalid user root from 10.0.0.5"

/-- The event `parse_log_line` produces for `bf_log_line`. -/
def ev_bf : SecurityEvent :=
  { vm_name := "u2-vm30000", timestamp := ⟨2024, 1, 1, 0, 0, 0⟩,
    source := "auth.log", message := bf_log_line,
    severity := .HIGH, rule := .BRUTE_FORCE,
    metadata := [("username", "root"), ("source_ip", "10.0.0.5")] }

/-! ## Lemmas about `splitFirst` / `pysplit` -/

/-- Reassembling a split with single separators (left inverse of the
split, showing the last field keeps every later delimiter occurrence). -/
def joinSep : List (List Char) → List Char
  | [] => []
  | [a] => a
  | a :: b :: rest => a ++ sepChars ++ joinSep (b :: rest)

lemma splitFirst_eq_some (sep : List Char) :
    ∀ s a b, splitFirst sep s = some (a, b) → s = a ++ sep ++ b := by
  intro s
  induction s with
  | nil => intro a b h; simp [splitFirst] at h
  | cons c cs ih =>
    intro a b h
    rw [splitFirst] at h
    split at h
    · next hpre =>
      obtain ⟨t, ht⟩ := List.isPrefixOf_iff_prefix.mp hpre
      simp only [Option.some.injEq, Prod.mk.injEq] at h
      obtain ⟨ha, hb⟩ := h
      subst ha
      rw [← ht, ← hb, ← ht]
      simp [List.drop_left]
    · split at h
      · next a2 b2 hsf =>
        simp only [Option.some.injEq, Prod.mk.injEq] at h
        obtain ⟨ha, hb⟩ := h
        subst ha; subst hb
        have := ih a2 b2 hsf
        simp [this]
      · exact absurd h (by simp)

lemma pysplit_ne_nil (sep : List Char) (n : Nat) (s : List Char) :
    pysplit sep n s ≠ [] := by
  cases n with
  | zero => simp [pysplit]
  | succ m =>
    rw [pysplit]
    cases h : splitFirst sep s with
    | none => simp
    | some ab => simp

lemma pysplit_join : ∀ (n : Nat) (s : List Char),
    joinSep (pysplit sepChars n s) = s := by
  intro n
  induction n with
  | zero => intro s; rfl
  | succ m ih =>
    intro s
    rw [pysplit]
    cases hsf : splitFirst sepChars s with
    | none => rfl
    | some ab =>
      obtain ⟨a, b⟩ := ab
      have hs := splitFirst_eq_some sepChars s a b hsf
      cases hrest : pysplit sepChars m b with
      | nil => exact absurd hrest (pysplit_ne_nil sepChars m b)
      | cons r0 rs =>
        have hj : joinSep (a :: r0 :: rs) = a ++ sepChars ++ joinSep (r0 :: rs) := rfl
        show joinSep (a :: pysplit sepChars m b) = s
        rw [hrest, hj, ← hrest, ih b]
        simp [hs]

/-- Claim C4: the parser yields no result on a blank or whitespace-only
line and on any line that does not split into exactly four parts on
`" | "`; when it does split, the split stops after exactly four parts, so
that rejoining the four parts with single delimiters reconstructs the
whole input and the fourth field absorbs any later delimiter occurrences
(illustrated on a body containing the delimiter). -/
theorem security_c4 :
    (∀ (now : PyDateTime) (line : String),
      (∀ c ∈ line.data, isPySpace c = true) → parse_log_line now line = none) ∧
    (∀ (now : PyDateTime) (line : String),
      (pysplit sepChars 3 (pyStrip line.data)).length ≠ 4 →
        parse_log_line now line = none) ∧
    (∀ s : List Char, joinSep (pysplit sepChars 3 s) = s) ∧
    (pysplit sepChars 3 "t | v | s | a | b".data).map String.mk =
      ["t", "v", "s", "a | b"] := by
  refine ⟨?_, ?_, fun s => pysplit_join 3 s, by decide⟩
  · intro now line hsp
    have hstrip : pyStrip line.data = [] := by
      unfold pyStrip
      have h1 : line.data.dropWhile isPySpace = [] := by
        rw [List.dropWhile_eq_nil_iff]
        intro c hc; simp [hsp c hc]
      simp [h1]
    simp [parse_log_line, hstrip]
  · intro now line hlen
    simp only [parse_log_line]
    split
    · rfl
    · split
      · next ts vm src msg heq =>
        rw [heq] at hlen
        simp at hlen
      · rfl

/-- Witness for C4 at concrete inputs: a whitespace-only line and a
three-field line are both rejected. -/
theorem security_c4_witness :
    parse_log_line now0 "   " = none ∧ parse_log_line now0 "a | b | c" = none :=
  ⟨security_c4.1 now0 "   " (by decide),
   security_c4.2.1 now0 "a | b | c" (by decide)⟩

/-! ## Inversion of `parse_log_line` -/

lemma parse_some_inv {now : PyDateTime} {line : String} {e : SecurityEvent}
    (h : parse_log_line now line = some e) :
    ∃ ts vm src msg rule gs,
      pysplit sepChars 3 (pyStrip line.data) = [ts, vm, src, msg] ∧
      registry_match msg = some (rule, gs) ∧
      e = { vm_name := String.mk vm,
            timestamp := (strptimeYmdHMS ts).getD now,
            source := String.mk src,
            message := String.mk (pyStrip line.data),
            severity := get_severity rule gs msg,
            rule := rule,
            metadata := extract_metadata rule gs } := by
  simp only [parse_log_line] at h
  split at h
  · exact absurd h (by simp)
  · split at h
    · next ts vm src msg heq =>
      split at h
      · next rule gs hmat =>
        refine ⟨ts, vm, src, msg, rule, gs, heq, hmat, ?_⟩
        exact (Option.some.inj h).symm
      · exact absurd h (by simp)
    · exact absurd h (by simp)

/-- `parse_log_line` on the canonical brute-force line (shared fixture). -/
lemma parse_bf : parse_log_line now0 bf_log_line = some ev_bf := by decide

/-- The canonical brute-force line with a trailing newline, as read from a
log file. -/
def c5_line : String := bf_log_line ++ "\n"

/-- Counterexample to C5 as stated: for an input line carrying a trailing
newline (or any surrounding whitespace) the produced event's `message` is
the stripped line, not the verbatim input line. -/
theorem security_c5_counterexample :
    (parse_log_line now0 c5_line).isSome ∧
    (parse_log_line now0 c5_line).map SecurityEvent.message ≠ some c5_line := by
  decide

/-- Claim C5, amended: the event's `message` equals the whitespace-stripped
input line (still the entire 4-field line, not just the log body); it is
the verbatim input line exactly when the line has no leading or trailing
whitespace. -/
theorem security_c5 : ∀ (now : PyDateTime) (line : String) (e : SecurityEvent),
    parse_log_line now line = some e →
    e.message = String.mk (pyStrip line.data) ∧
    (pyStrip line.data = line.data → e.message = line) := by
  intro now line e h
  obtain ⟨ts, vm, src, msg, rule, gs, hsplit, hmat, he⟩ := parse_some_inv h
  subst he
  refine ⟨rfl, fun hp => ?_⟩
  show String.mk (pyStrip line.data) = line
  rw [hp]

/-- Witness for the amended C5 on the canonical line, whose `message`
comes out verbatim because it has no surrounding whitespace. -/
theorem security_c5_witness :
    parse_log_line now0 bf_log_line = some ev_bf ∧ ev_bf.message = bf_log_line :=
  ⟨parse_bf, (security_c5 now0 bf_log_line ev_bf parse_bf).2 (by decide)⟩

/-! ## Claim C8: produced rules and the unreachable LOW fallback -/

lemma scanRules_mem :
    ∀ (l : List (SecurityRule × List (RE × Nat))) (msg : List Char)
      (r : SecurityRule) (gs : List String),
      scanRules msg l = some (r, gs) → r ∈ l.map Prod.fst := by
  intro l
  induction l with
  | nil => intro msg r gs h; simp [scanRules] at h
  | cons hd tl ih =>
    intro msg r gs h
    obtain ⟨hr, hps⟩ := hd
    simp only [scanRules] at h
    cases htp : tryPats msg hps with
    | some gs2 =>
      rw [htp] at h
      simp only [Option.some.injEq, Prod.mk.injEq] at h
      simp [h.1.symm]
    | none =>
      rw [htp] at h
      simpa using Or.inr (ih msg r gs h)

lemma get_severity_ne_low (r : SecurityRule) (gs : List String)
    (msg : List Char) (hr : r ≠ .OTHER) :
    get_severity r gs msg ≠ .LOW := by
  cases r <;> simp only [get_severity] <;> (repeat' split) <;> simp_all

/-- Claim C8: every produced event carries one of the four real rules,
never `other`, and consequently the defensive LOW fallback of
`_get_severity` is never exercised: no produced event has severity low. -/
theorem security_c8 : ∀ (now : PyDateTime) (line : String) (e : SecurityEvent),
    parse_log_line now line = some e →
    (e.rule = .EGRESS ∨ e.rule = .BRUTE_FORCE ∨ e.rule = .SUDO ∨
      e.rule = .OOM_KILL) ∧ e.rule ≠ .OTHER ∧ e.severity ≠ .LOW := by
  intro now line e h
  obtain ⟨ts, vm, src, msg, rule, gs, hsplit, hmat, he⟩ := parse_some_inv h
  have hmem := scanRules_mem patterns msg rule gs hmat
  simp only [patterns, List.map_cons, List.map_nil, List.mem_cons,
    List.mem_singleton, List.not_mem_nil, or_false] at hmem
  subst he
  rcases hmem with h1 | h1 | h1 | h1 <;> subst h1 <;>
    refine ⟨?_, ?_, ?_⟩ <;> dsimp only <;>
    first
      | exact get_severity_ne_low _ gs msg (by simp)
      | simp

/-- Witness for C8 on the canonical brute-force line. -/
theorem security_c8_witness :
    (ev_bf.rule = .EGRESS ∨ ev_bf.rule = .BRUTE_FORCE ∨ ev_bf.rule = .SUDO ∨
      ev_bf.rule = .OOM_KILL) ∧ ev_bf.rule ≠ .OTHER ∧ ev_bf.severity ≠ .LOW :=
  security_c8 now0 bf_log_line ev_bf parse_bf

/-! ## Characterization of the registry match as a nested first-match -/

lemma registry_match_char (msg : List Char) :
    registry_match msg =
      match reSearch P_egress msg with
      | some g => some (.EGRESS, groupStrs 5 g)
      | none =>
        match reSearch P_bf1 msg with
        | some g => some (.BRUTE_FORCE, groupStrs 2 g)
        | none =>
          match reSearch P_bf2 msg with
          | some g => some (.BRUTE_FORCE, groupStrs 2 g)
          | none =>
            match reSearch P_bf3 msg with
            | some g => some (.BRUTE_FORCE, groupStrs 2 g)
            | none =>
              match reSearch P_sudo1 msg with
              | some g => some (.SUDO, groupStrs 3 g)
              | none =>
                match reSearch P_sudo2 msg with
                | some g => some (.SUDO, groupStrs 2 g)
                | none =>
                  match reSearch P_sudo3 msg with
                  | some g => some (.SUDO, groupStrs 2 g)
                  | none =>
                    match reSearch P_oom1 msg with
                    | some g => some (.OOM_KILL, groupStrs 2 g)
                    | none =>
                      match reSearch P_oom2 msg with
                      | some g => some (.OOM_KILL, groupStrs 1 g)
                      | none => none := by
  simp only [registry_match, patterns, scanRules, tryPats]
  cases reSearch P_egress msg with
  | some g => rfl
  | none =>
    cases reSearch P_bf1 msg with
    | some g => rfl
    | none =>
      cases reSearch P_bf2 msg with
      | some g => rfl
      | none =>
        cases reSearch P_bf3 msg with
        | some g => rfl
        | none =>
          cases reSearch P_sudo1 msg with
          | some g => rfl
          | none =>
            cases reSearch P_sudo2 msg with
            | some g => rfl
            | none =>
              cases reSearch P_sudo3 msg with
              | some g => rfl
              | none =>
                cases reSearch P_oom1 msg with
                | some g => rfl
                | none =>
                  cases reSearch P_oom2 msg with
                  | some g => rfl
                  | none => rfl

lemma registry_egress_inv {msg : List Char} {gs : List String}
    (h : registry_match msg = some (.EGRESS, gs)) :
    ∃ g, reSearch P_egress msg = some g ∧ gs = groupStrs 5 g := by
  rw [registry_match_char] at h
  split at h
  · next g heq =>
    simp only [Option.some.injEq, Prod.mk.injEq] at h
    exact ⟨g, heq, h.2.symm⟩
  · next heq =>
    exfalso
    repeat' split at h
    all_goals simp_all

/-! ## Claim C3: egress severity from the read-source token -/

def egress_sql_line : String :=
  "2024-01-01 00:00:00 | vm1 | kern.log | kernel: egress (0) pid 123 read /data/dump.sql write /tmp/out uid 0 gid 0"

def egress_txt_line : String :=
  "2024-01-01 00:00:00 | vm1 | kern.log | kernel: egress (0) pid 123 read .txt write /tmp/out uid 0 gid 0"

/-- The event produced for `egress_sql_line`. -/
def ev_eg_sql : SecurityEvent :=
  { vm_name := "vm1", timestamp := ⟨2024, 1, 1, 0, 0, 0⟩,
    source := "kern.log", message := egress_sql_line,
    severity := .CRITICAL, rule := .EGRESS,
    metadata := [("pid", "123"), ("read_file", "/data/dump.sql"),
      ("write_dest", "/tmp/out"), ("uid", "0"), ("gid", "0")] }

/-- Claim C3: for every egress event, the severity is critical exactly
when the captured read-source token (group 2, surfaced as the
`read_file` metadata entry) contains, case-insensitively, one of the
substrings .csv, .zip, .sql, .key, .pem, and high otherwise; a
read-source ending in `.sql` yields critical, a read-source of `.txt`
yields high. -/
lemma mget_cons_ne (k a : String) (v : String) (m : List (String × String))
    (h : (a == k) = false) : mget ((a, v) :: m) k = mget m k := by
  simp [mget, List.find?, h]

lemma mget_cons_eq (k a : String) (v : String) (m : List (String × String))
    (h : (a == k) = true) : mget ((a, v) :: m) k = some v := by
  simp [mget, List.find?, h]

lemma get_severity_egress (gs : List String) (msg : List Char)
    (h : 1 < gs.length) :
    get_severity .EGRESS gs msg =
      if sensitive_exts.any
          (fun x => containsSub x.data (pyLower (gs.getD 1 "").data)) then
        .CRITICAL
      else .HIGH := by
  simp only [get_severity, if_pos h]

/-- Claim C3: for every egress event, the severity is critical exactly
when the captured read-source token (group 2, surfaced as the
`read_file` metadata entry) contains, case-insensitively, one of the
substrings .csv, .zip, .sql, .key, .pem, and high otherwise; a
read-source ending in `.sql` yields critical, a read-source of `.txt`
yields high. -/
theorem security_c3 :
    (∀ (now : PyDateTime) (line : String) (e : SecurityEvent),
      parse_log_line now line = some e → e.rule = .EGRESS →
      ∃ rf, mget e.metadata "read_file" = some rf ∧
        (e.severity = .CRITICAL ↔
          sensitive_exts.any
            (fun x => containsSub x.data (pyLower rf.data)) = true) ∧
        (e.severity = .CRITICAL ∨ e.severity = .HIGH)) ∧
    (parse_log_line now0 egress_sql_line).map SecurityEvent.severity =
      some .CRITICAL ∧
    (parse_log_line now0 egress_txt_line).map SecurityEvent.severity =
      some .HIGH := by
  refine ⟨?_, by decide, by decide⟩
  intro now line e h hrule
  obtain ⟨ts, vm, src, msg, rule, gs, hsplit, hmat, he⟩ := parse_some_inv h
  have hrule2 : rule = .EGRESS := by rw [he] at hrule; exact hrule
  subst hrule2
  obtain ⟨g, hsearch, hgs⟩ := registry_egress_inv hmat
  have hlen : gs.length = 5 := by rw [hgs]; simp [groupStrs]
  have hsev : e.severity =
      if sensitive_exts.any
          (fun x => containsSub x.data (pyLower (gs.getD 1 "").data)) then
        SecuritySeverity.CRITICAL
      else SecuritySeverity.HIGH := by
    rw [he]
    exact get_severity_egress gs msg (by omega)
  refine ⟨gs.getD 1 "", ?_, ?_, ?_⟩
  · rw [he]
    show mget (extract_metadata .EGRESS gs) "read_file" = some (gs.getD 1 "")
    simp only [extract_metadata, if_pos (show 5 ≤ gs.length by omega)]
    rw [mget_cons_ne _ _ _ _ (by decide), mget_cons_eq _ _ _ _ (by decide)]
  · rw [hsev]
    by_cases hc : sensitive_exts.any
        (fun x => containsSub x.data (pyLower (gs.getD 1 "").data)) = true
    · simp [hc]
    · simp [hc]
  · rw [hsev]
    split
    · exact Or.inl rfl
    · exact Or.inr rfl

/-- Witness for C3: the conclusion instantiated on the `.sql` egress line
and its concrete event. -/
theorem security_c3_witness :
    ∃ rf, mget ev_eg_sql.metadata "read_file" = some rf ∧
      (ev_eg_sql.severity = .CRITICAL ↔
        sensitive_exts.any
          (fun x => containsSub x.data (pyLower rf.data)) = true) ∧
      (ev_eg_sql.severity = .CRITICAL ∨ ev_eg_sql.severity = .HIGH) :=
  security_c3.1 now0 egress_sql_line ev_eg_sql (by decide) (by decide)

/-! ## Keys of the `defaultdict` accumulators are distinct, in
first-occurrence order -/

lemma bump_fst (m : List (String × Nat)) (k : String) :
    (bump m k).map Prod.fst =
      if m.any (fun p => p.1 == k) then m.map Prod.fst
      else m.map Prod.fst ++ [k] := by
  unfold bump
  split
  · rw [List.map_map]
    refine List.map_congr_left fun p _ => ?_
    simp only [Function.comp]
    split <;> rfl
  · simp

lemma bump_keys_nodup (m : List (String × Nat)) (k : String)
    (h : (m.map Prod.fst).Nodup) : ((bump m k).map Prod.fst).Nodup := by
  rw [bump_fst]
  split
  · exact h
  · next hany =>
    have hnm : k ∉ m.map Prod.fst := by
      intro hmem
      obtain ⟨p, hp, hpk⟩ := List.mem_map.mp hmem
      exact hany (List.any_eq_true.mpr ⟨p, hp, by simp [hpk]⟩)
    simp [List.nodup_append, h, hnm]

lemma ip_failures_keys_nodup (events : List SecurityEvent) :
    ((ip_failures events).map Prod.fst).Nodup := by
  suffices h : ∀ (l : List SecurityEvent) (m : List (String × Nat)),
      (m.map Prod.fst).Nodup →
      ((l.foldl (fun m e =>
        if e.rule = .BRUTE_FORCE ∧ e.metadata ≠ [] then
          match mget e.metadata "source_ip" with
          | some ip => if ip ≠ "" then bump m ip else m
          | none => m
        else m) m).map Prod.fst).Nodup by
    exact h events [] (by simp)
  intro l
  induction l with
  | nil => intro m hm; simpa using hm
  | cons e l ih =>
    intro m hm
    rw [List.foldl_cons]
    apply ih
    split
    · cases mget e.metadata "source_ip" with
      | some ip =>
        dsimp only
        split
        · exact bump_keys_nodup m ip hm
        · exact hm
      | none => exact hm
    · exact hm

lemma find_eq_of_mem_nodup :
    ∀ (m : List (String × Nat)) (p : String × Nat),
      (m.map Prod.fst).Nodup → p ∈ m →
      m.find? (fun q => q.1 == p.1) = some p := by
  intro m
  induction m with
  | nil => intro p _ hmem; simp at hmem
  | cons hd tl ih =>
    intro p hnd hmem
    rcases List.mem_cons.mp hmem with heq | hmem2
    · subst heq
      simp [List.find?]
    · have hk : p.1 ∈ tl.map Prod.fst := List.mem_map.mpr ⟨p, hmem2, rfl⟩
      have hnd2 := List.nodup_cons.mp hnd
      have hne : (hd.1 == p.1) = false := by
        simp only [beq_eq_false_iff_ne, ne_eq]
        intro hcontra
        exact hnd2.1 (hcontra ▸ hk)
      simp only [List.find?, hne]
      exact ih p hnd2.2 hmem2

lemma lookupCount_eq_of_mem (m : List (String × Nat)) (p : String × Nat)
    (hnd : (m.map Prod.fst).Nodup) (hmem : p ∈ m) :
    lookupCount m p.1 = p.2 := by
  rw [lookupCount, find_eq_of_mem_nodup m p hnd hmem]

/-! ## Claim C6: the rate-limiting recommendation -/

/-- Claim C6: the recommendation to add IP-based rate limiting is present
exactly when the brute-force per-IP tally holds more than 3 distinct
offending IPs (the tally keys are distinct, so its length counts distinct
IPs); the right-hand side mentions only the `ip_failures` accumulator, so
the recommendation is independent of the threat list. -/
theorem security_c6 : ∀ events : List SecurityEvent,
    ("Consider implementing IP-based rate limiting" ∈
        (analyze_events events).recommendations ↔
      3 < (ip_failures events).length) ∧
    ((ip_failures events).map Prod.fst).Nodup := by
  intro events
  refine ⟨?_, ip_failures_keys_nodup events⟩
  by_cases h1 : 0 < lookupCount (severity_breakdown_of events) "critical" <;>
    by_cases h2 : 3 < (ip_failures events).length <;>
    by_cases h3 : egress_files events = [] <;>
    simp [analyze_events, recommendations_of, h1, h2, h3]

/-- A brute-force event with a given source IP (used for witnesses). -/
def ev_ip (ip : String) : SecurityEvent :=
  { ev_bf with metadata := [("username", "root"), ("source_ip", ip)] }

def c6_batch : List SecurityEvent :=
  [ev_ip "1.1.1.1", ev_ip "2.2.2.2", ev_ip "3.3.3.3", ev_ip "4.4.4.4"]

/-- Witness for C6 on a batch with four distinct offending IPs. -/
theorem security_c6_witness :
    ("Consider implementing IP-based rate limiting" ∈
      (analyze_events c6_batch).recommendations) ∧
    ((ip_failures c6_batch).map Prod.fst).Nodup :=
  ⟨((security_c6 c6_batch).1).mpr (by decide), (security_c6 c6_batch).2⟩

/-! ## Threat-line strings: shape and injectivity -/

lemma digitChar_isDigit (n : Nat) (h : n < 10) :
    (Nat.digitChar n).isDigit = true := by
  interval_cases n <;> decide

lemma toDigitsCore_digits :
    ∀ (fuel n : Nat) (ds : List Char), (∀ c ∈ ds, c.isDigit = true) →
      ∀ c ∈ Nat.toDigitsCore 10 fuel n ds, c.isDigit = true := by
  intro fuel
  induction fuel with
  | zero => intro n ds hds c hc; exact hds c hc
  | succ f ih =>
    intro n ds hds c hc
    rw [Nat.toDigitsCore] at hc
    split at hc
    · rcases List.mem_cons.mp hc with h1 | h1
      · rw [h1]
        exact digitChar_isDigit _ (Nat.mod_lt _ (by norm_num))
      · exact hds c h1
    · refine ih (n / 10) (Nat.digitChar (n % 10) :: ds) ?_ c hc
      intro c2 hc2
      rcases List.mem_cons.mp hc2 with h1 | h1
      · rw [h1]
        exact digitChar_isDigit _ (Nat.mod_lt _ (by norm_num))
      · exact hds c2 h1

lemma repr_digits (n : Nat) : ∀ c ∈ (Nat.repr n).data, c.isDigit = true := by
  intro c hc
  have hrepr : (Nat.repr n).data = Nat.toDigitsCore 10 (n + 1) n [] := rfl
  rw [hrepr] at hc
  exact toDigitsCore_digits (n + 1) n [] (by simp) c hc

lemma append_digits_inj :
    ∀ (x y d1 d2 : List Char),
      (∀ c ∈ d1, c.isDigit = true) → (∀ c ∈ d2, c.isDigit = true) →
      x ++ ':' :: ' ' :: d1 = y ++ ':' :: ' ' :: d2 → x = y := by
  intro x
  induction x with
  | nil =>
    intro y d1 d2 h1 h2 heq
    cases y with
    | nil => rfl
    | cons b y2 =>
      simp only [List.nil_append, List.cons_append] at heq
      obtain ⟨hb, heq2⟩ := List.cons.inj heq
      cases y2 with
      | nil => simp at heq2
      | cons c2 y3 =>
        obtain ⟨hc2, heq3⟩ := List.cons.inj heq2
        have hmem : (':' : Char) ∈ d1 := by rw [heq3]; simp
        exact absurd (h1 _ hmem) (by decide)
  | cons a x2 ih =>
    intro y d1 d2 h1 h2 heq
    cases y with
    | nil =>
      simp only [List.nil_append, List.cons_append] at heq
      obtain ⟨hb, heq2⟩ := List.cons.inj heq
      cases x2 with
      | nil => simp at heq2
      | cons c3 x3 =>
        obtain ⟨hc3, heq3⟩ := List.cons.inj heq2
        have hmem : (':' : Char) ∈ d2 := by rw [← heq3]; simp
        exact absurd (h2 _ hmem) (by decide)
    | cons b y2 =>
      simp only [List.cons_append] at heq
      obtain ⟨hab, heq2⟩ := List.cons.inj heq
      rw [hab, ih y2 d1 d2 h1 h2 heq2]

lemma toString_nat (n : Nat) : toString n = Nat.repr n := rfl

lemma bf_line_data (ip : String) (c : Nat) :
    (bf_threat_line ip c).data =
      "Brute force attack from ".data ++
        (ip.data ++ (": ".data ++
          ((Nat.repr c).data ++ " failed attempts".data))) := by
  simp [bf_threat_line, toString_nat, String.data_append, List.append_assoc]

lemma sudo_line_data (u : String) (c : Nat) :
    (sudo_threat_line u c).data =
      "Excessive sudo usage by ".data ++
        (u.data ++ (": ".data ++
          ((Nat.repr c).data ++ " attempts".data))) := by
  simp [sudo_threat_line, toString_nat, String.data_append, List.append_assoc]

lemma exfil_line_data (n : Nat) :
    (exfil_threat_line n).data =
      "Data exfiltration detected: ".data ++
        ((Nat.repr n).data ++ " unique files accessed".data) := by
  simp [exfil_threat_line, toString_nat, String.data_append, List.append_assoc]

lemma bf_ne_sudo (a u : String) (b v : Nat) :
    bf_threat_line a b ≠ sudo_threat_line u v := by
  intro h
  have hd := congrArg String.data h
  rw [bf_line_data, sudo_line_data] at hd
  have h1 : "Brute force attack from ".data =
      'B' :: "rute force attack from ".data := rfl
  have h2 : "Excessive sudo usage by ".data =
      'E' :: "xcessive sudo usage by ".data := rfl
  rw [h1, h2] at hd
  simp at hd

lemma bf_ne_exfil (a : String) (b n : Nat) :
    bf_threat_line a b ≠ exfil_threat_line n := by
  intro h
  have hd := congrArg String.data h
  rw [bf_line_data, exfil_line_data] at hd
  have h1 : "Brute force attack from ".data =
      'B' :: "rute force attack from ".data := rfl
  have h2 : "Data exfiltration detected: ".data =
      'D' :: "ata exfiltration detected: ".data := rfl
  rw [h1, h2] at hd
  simp at hd

lemma bf_line_inj {a b : String} {m n : Nat}
    (h : bf_threat_line a m = bf_threat_line b n) : a = b := by
  have hd := congrArg String.data h
  rw [bf_line_data, bf_line_data] at hd
  have hd2 := List.append_cancel_left hd
  have key : ∀ (z d S : List Char),
      z ++ (": ".data ++ (d ++ S)) = (z ++ (':' :: ' ' :: d)) ++ S := by
    intro z d S
    have hcolon : (": ".data : List Char) = [':', ' '] := rfl
    rw [hcolon]
    simp [List.append_assoc]
  rw [key, key] at hd2
  have hd3 := List.append_cancel_right hd2
  have hdata := append_digits_inj a.data b.data (Nat.repr m).data
    (Nat.repr n).data (repr_digits m) (repr_digits n) hd3
  cases a; cases b; simp_all

/-! ## Claim C2: the brute-force threat threshold is strictly 5 -/

/-- Claim C2: the analyzer emits a brute-force threat line for a source
IP exactly when that IP's accumulated attempt count is strictly greater
than 5; a batch of exactly 5 brute-force events sharing one source IP
yields no threat line at all, and a batch of 6 yields exactly one threat
line naming that IP and the count 6. -/
theorem security_c2 :
    (∀ (events : List SecurityEvent) (ip : String),
      (∃ c, bf_threat_line ip c ∈ (analyze_events events).threats) ↔
        5 < lookupCount (ip_failures events) ip) ∧
    (analyze_events (List.replicate 5 ev_bf)).threats = [] ∧
    (analyze_events (List.replicate 6 ev_bf)).threats =
      [bf_threat_line "10.0.0.5" 6] := by
  refine ⟨?_, by decide, by decide⟩
  intro events ip
  constructor
  · rintro ⟨c, hc⟩
    simp only [analyze_events, threats_of, List.mem_append] at hc
    rcases hc with (hbf | hsudo) | hex
    · obtain ⟨p, hp, hline⟩ := List.mem_map.mp hbf
      have hpmem := List.mem_filter.mp hp
      have hip : p.1 = ip := bf_line_inj hline
      have h5 : 5 < p.2 := by simpa using hpmem.2
      have hcnt := lookupCount_eq_of_mem (ip_failures events) p
        (ip_failures_keys_nodup events) hpmem.1
      rw [hip] at hcnt
      omega
    · obtain ⟨p, hp, hline⟩ := List.mem_map.mp hsudo
      exact absurd hline.symm (bf_ne_sudo ip p.1 c p.2)
    · split at hex
      · rcases List.mem_singleton.mp hex with hline
        exact absurd hline (bf_ne_exfil ip c _)
      · simp at hex
  · intro h5
    cases hf : (ip_failures events).find? (fun q => q.1 == ip) with
    | none => simp [lookupCount, hf] at h5
    | some p =>
      have hmem := List.mem_of_find?_eq_some hf
      have hkey : p.1 = ip := by simpa using List.find?_some hf
      have hcnt : lookupCount (ip_failures events) ip = p.2 := by
        rw [lookupCount, hf]
      refine ⟨p.2, ?_⟩
      simp only [analyze_events, threats_of, List.mem_append]
      left; left
      refine List.mem_map.mpr ⟨p, List.mem_filter.mpr ⟨hmem, ?_⟩, by rw [hkey]⟩
      simp only [decide_eq_true_eq]
      omega

/-- Witness for C2: the six-copy batch reaches the threshold, the
five-copy batch does not. -/
theorem security_c2_witness :
    (∃ c, bf_threat_line "10.0.0.5" c ∈
      (analyze_events (List.replicate 6 ev_bf)).threats) ∧
    ¬(∃ c, bf_threat_line "10.0.0.5" c ∈
      (analyze_events (List.replicate 5 ev_bf)).threats) :=
  ⟨(security_c2.1 (List.replicate 6 ev_bf) "10.0.0.5").mpr (by decide),
   fun h => by
     have := (security_c2.1 (List.replicate 5 ev_bf) "10.0.0.5").mp h
     revert this
     decide⟩

/-! ## Claim C7: re-classification is deterministic up to the wall-clock
fallback -/

/-- The timestamp field of a line (first field of the 4-way split). -/
def ts_field (line : String) : List Char :=
  (pysplit sepChars 3 (pyStrip line.data)).headD []

/-- Claim C7: classifying the same line twice (with possibly different
wall clocks) yields structurally identical events in every field except
the timestamp; the timestamps agree (at the parsed value) whenever the
line's timestamp field parses in the fixed Y-m-d H:M:S format, and each
run substitutes its own wall clock exactly when that parse fails. -/
theorem security_c7 : ∀ (line : String) (nowa nowb : PyDateTime)
    (e1 e2 : SecurityEvent),
    parse_log_line nowa line = some e1 → parse_log_line nowb line = some e2 →
    e1.vm_name = e2.vm_name ∧ e1.source = e2.source ∧
    e1.message = e2.message ∧ e1.severity = e2.severity ∧
    e1.rule = e2.rule ∧ e1.metadata = e2.metadata ∧
    (∀ d, strptimeYmdHMS (ts_field line) = some d →
      e1.timestamp = d ∧ e2.timestamp = d) ∧
    (strptimeYmdHMS (ts_field line) = none →
      e1.timestamp = nowa ∧ e2.timestamp = nowb) := by
  intro line nowa nowb e1 e2 h1 h2
  obtain ⟨ts, vm, src, msg, rule, gs, hsplit, hmat, he⟩ := parse_some_inv h1
  obtain ⟨ts2, vm2, src2, msg2, rule2, gs2, hsplit2, hmat2, he2⟩ :=
    parse_some_inv h2
  have hl := hsplit.symm.trans hsplit2
  simp only [List.cons.injEq, and_true] at hl
  obtain ⟨hts, hvm, hsrc, hmsg⟩ := hl
  subst hts; subst hvm; subst hsrc; subst hmsg
  have hm := hmat.symm.trans hmat2
  simp only [Option.some.injEq, Prod.mk.injEq] at hm
  obtain ⟨hrule, hgs⟩ := hm
  subst hrule; subst hgs
  have htsf : ts_field line = ts := by rw [ts_field, hsplit]; rfl
  subst he; subst he2
  refine ⟨rfl, rfl, rfl, rfl, rfl, rfl, ?_, ?_⟩
  · intro d hd
    rw [htsf] at hd
    simp [hd]
  · intro hd
    rw [htsf] at hd
    simp [hd]

/-- Witness for C7: the canonical line parsed under two different wall
clocks; its timestamp field parses, so both runs carry the parsed
timestamp. -/
theorem security_c7_witness :
    ev_bf.vm_name = ev_bf.vm_name ∧ ev_bf.source = ev_bf.source ∧
    ev_bf.message = ev_bf.message ∧ ev_bf.severity = ev_bf.severity ∧
    ev_bf.rule = ev_bf.rule ∧ ev_bf.metadata = ev_bf.metadata ∧
    (∀ d, strptimeYmdHMS (ts_field bf_log_line) = some d →
      ev_bf.timestamp = d ∧ ev_bf.timestamp = d) ∧
    (strptimeYmdHMS (ts_field bf_log_line) = none →
      ev_bf.timestamp = now0 ∧ ev_bf.timestamp = now1) :=
  security_c7 bf_log_line now0 now1 ev_bf ev_bf parse_bf (by decide)

/-! ## Language semantics of the pattern fragment, and soundness of the
matcher's capture groups

`ReLang r u` says the pattern `r` matches exactly the text `u`.  The
soundness theorem shows that whatever the backtracking matcher records
for a capture group is text matched by that group's subpattern. -/

inductive ReLang : RE → List Char → Prop where
  | eps : ReLang .eps []
  | lit {c c1 : Char} : lowerChar c1 = lowerChar c → ReLang (.lit c) [c1]
  | cls {cc : CharCls} {c1 : Char} : clsMem cc c1 = true → ReLang (.cls cc) [c1]
  | seq {a b : RE} {u v : List Char} :
      ReLang a u → ReLang b v → ReLang (.seq a b) (u ++ v)
  | altL {a b : RE} {u : List Char} : ReLang a u → ReLang (.alt a b) u
  | altR {a b : RE} {u : List Char} : ReLang b u → ReLang (.alt a b) u
  | star {cc : CharCls} {u : List Char} :
      (∀ c ∈ u, clsMem cc c = true) → ReLang (.star cc) u
  | plus {cc : CharCls} {u : List Char} :
      u ≠ [] → (∀ c ∈ u, clsMem cc c = true) → ReLang (.plus cc) u
  | optS {a : RE} {u : List Char} : ReLang a u → ReLang (.opt a) u
  | optN {a : RE} : ReLang (.opt a) []
  | grp {n : Nat} {a : RE} {u : List Char} : ReLang a u → ReLang (.grp n a) u

/-- All capture-group numbers of a pattern. -/
def grpNums : RE → List Nat
  | .eps => []
  | .lit _ => []
  | .cls _ => []
  | .star _ => []
  | .plus _ => []
  | .seq a b => grpNums a ++ grpNums b
  | .alt a b => grpNums a ++ grpNums b
  | .opt a => grpNums a
  | .grp n a => n :: grpNums a

/-- The subpattern wrapped by capture group `n`. -/
def groupSub : RE → Nat → Option RE
  | .eps, _ => none
  | .lit _, _ => none
  | .cls _, _ => none
  | .star _, _ => none
  | .plus _, _ => none
  | .seq a b, n =>
    match groupSub a n with
    | some x => some x
    | none => groupSub b n
  | .alt a b, n =>
    match groupSub a n with
    | some x => some x
    | none => groupSub b n
  | .opt a, n => groupSub a n
  | .grp m a, n => if m = n then some a else groupSub a n

/-- Capture groups on every success path (not under alternation or
option). -/
def mandGrps : RE → List Nat
  | .seq a b => mandGrps a ++ mandGrps b
  | .grp n a => n :: mandGrps a
  | _ => []

lemma groupSub_none_of_not_mem :
    ∀ (r : RE) (n : Nat), n ∉ grpNums r → groupSub r n = none := by
  intro r
  induction r with
  | eps => intro n _; rfl
  | lit c => intro n _; rfl
  | cls cc => intro n _; rfl
  | star cc => intro n _; rfl
  | plus cc => intro n _; rfl
  | seq a b iha ihb =>
    intro n hn
    simp only [grpNums, List.mem_append] at hn
    push_neg at hn
    simp only [groupSub, iha n hn.1, ihb n hn.2]
  | alt a b iha ihb =>
    intro n hn
    simp only [grpNums, List.mem_append] at hn
    push_neg at hn
    simp only [groupSub, iha n hn.1, ihb n hn.2]
  | opt a iha =>
    intro n hn
    simp only [grpNums] at hn
    simp only [groupSub, iha n hn]
  | grp m a iha =>
    intro n hn
    simp only [grpNums, List.mem_cons] at hn
    push_neg at hn
    simp only [groupSub, if_neg (Ne.symm hn.1), iha n hn.2]

lemma groupSub_isSome_of_mem :
    ∀ (r : RE) (n : Nat), n ∈ grpNums r → (groupSub r n).isSome = true := by
  intro r
  induction r with
  | eps => intro n hn; simp [grpNums] at hn
  | lit c => intro n hn; simp [grpNums] at hn
  | cls cc => intro n hn; simp [grpNums] at hn
  | star cc => intro n hn; simp [grpNums] at hn
  | plus cc => intro n hn; simp [grpNums] at hn
  | seq a b iha ihb =>
    intro n hn
    simp only [grpNums, List.mem_append] at hn
    simp only [groupSub]
    cases hga : groupSub a n with
    | some x => simp
    | none =>
      rcases hn with hna | hnb
      · have := iha n hna; rw [hga] at this; simp at this
      · simpa using ihb n hnb
  | alt a b iha ihb =>
    intro n hn
    simp only [grpNums, List.mem_append] at hn
    simp only [groupSub]
    cases hga : groupSub a n with
    | some x => simp
    | none =>
      rcases hn with hna | hnb
      · have := iha n hna; rw [hga] at this; simp at this
      · simpa using ihb n hnb
  | opt a iha =>
    intro n hn
    simp only [grpNums] at hn
    simpa [groupSub] using iha n hn
  | grp m a iha =>
    intro n hn
    simp only [grpNums, List.mem_cons] at hn
    by_cases hm : m = n
    · simp [groupSub, hm]
    · rcases hn with hn1 | hn2
      · exact absurd hn1.symm hm
      · simpa [groupSub, hm] using iha n hn2

lemma starRun_sound :
    ∀ (p : Char → Bool) (s : List Char) (k : List Char → Option GroupMap)
      (res : GroupMap),
      starRun p s k = some res →
      ∃ u s1, s = u ++ s1 ∧ (∀ c ∈ u, p c = true) ∧ k s1 = some res := by
  intro p s
  induction s with
  | nil =>
    intro k res h
    rw [starRun] at h
    exact ⟨[], [], rfl, by simp, h⟩
  | cons c cs ih =>
    intro k res h
    rw [starRun] at h
    split at h
    · next hpc =>
      cases hrec : starRun p cs k with
      | some r2 =>
        rw [hrec] at h
        have hr : r2 = res := by simpa using h
        subst hr
        obtain ⟨u, s1, hs, hall, hk⟩ := ih k r2 hrec
        refine ⟨c :: u, s1, by simp [hs], ?_, hk⟩
        intro c2 hc2
        rcases List.mem_cons.mp hc2 with h1 | h1
        · rw [h1]; exact hpc
        · exact hall c2 h1
      | none =>
        rw [hrec] at h
        exact ⟨[], c :: cs, rfl, by simp, h⟩
    · exact ⟨[], c :: cs, rfl, by simp, h⟩

theorem reMatch_sound :
    ∀ (r : RE), (grpNums r).Nodup →
    ∀ (s : List Char) (k : List Char → GroupMap → Option GroupMap)
      (g res : GroupMap),
      reMatch r s k g = some res →
      ∃ u s1 gn, s = u ++ s1 ∧ ReLang r u ∧
        (∀ p ∈ gn, p.1 ∈ grpNums r) ∧
        (∀ p ∈ gn, ∀ sub, groupSub r p.1 = some sub → ReLang sub p.2) ∧
        (∀ n ∈ mandGrps r, n ∈ gn.map Prod.fst) ∧
        k s1 (gn ++ g) = some res := by
  intro r
  induction r with
  | eps =>
    intro hnd s k g res h
    exact ⟨[], s, [], rfl, ReLang.eps, by simp, by simp, by simp [mandGrps],
      by simpa using h⟩
  | lit c =>
    intro hnd s k g res h
    cases s with
    | nil => exact absurd h (by simp [reMatch])
    | cons c1 s1 =>
      simp only [reMatch] at h
      split at h
      · next hcond =>
        exact ⟨[c1], s1, [], rfl, ReLang.lit (by simpa using hcond), by simp,
          by simp, by simp [mandGrps], by simpa using h⟩
      · exact absurd h (by simp)
  | cls cc =>
    intro hnd s k g res h
    cases s with
    | nil => exact absurd h (by simp [reMatch])
    | cons c1 s1 =>
      simp only [reMatch] at h
      split at h
      · next hcond =>
        exact ⟨[c1], s1, [], rfl, ReLang.cls hcond, by simp, by simp,
          by simp [mandGrps], by simpa using h⟩
      · exact absurd h (by simp)
  | seq a b iha ihb =>
    intro hnd s k g res h
    simp only [grpNums] at hnd
    obtain ⟨hnda, hndb, hdis⟩ := List.nodup_append.mp hnd
    simp only [reMatch] at h
    obtain ⟨u1, s1, gn1, hs1, hl1, hmem1, hspec1, hmand1, hk1⟩ :=
      iha hnda s _ g res h
    replace hk1 : reMatch b s1 k (gn1 ++ g) = some res := hk1
    obtain ⟨u2, s2, gn2, hs2, hl2, hmem2, hspec2, hmand2, hk2⟩ :=
      ihb hndb s1 k (gn1 ++ g) res hk1
    refine ⟨u1 ++ u2, s2, gn2 ++ gn1, ?_, ReLang.seq hl1 hl2, ?_, ?_, ?_, ?_⟩
    · rw [hs1, hs2, List.append_assoc]
    · intro p hp
      simp only [grpNums, List.mem_append]
      rcases List.mem_append.mp hp with h2 | h1
      · exact Or.inr (hmem2 p h2)
      · exact Or.inl (hmem1 p h1)
    · intro p hp sub hsub
      simp only [groupSub] at hsub
      rcases List.mem_append.mp hp with h2 | h1
      · have hnotina : p.1 ∉ grpNums a := fun hin => hdis hin (hmem2 p h2)
        rw [groupSub_none_of_not_mem a p.1 hnotina] at hsub
        exact hspec2 p h2 sub hsub
      · have hin := hmem1 p h1
        cases hga : groupSub a p.1 with
        | none =>
          have := groupSub_isSome_of_mem a p.1 hin
          rw [hga] at this; simp at this
        | some x =>
          rw [hga] at hsub
          have hx : x = sub := by simpa using hsub
          rw [← hx]
          exact hspec1 p h1 x hga
    · intro n hn
      simp only [mandGrps, List.mem_append] at hn
      simp only [List.map_append, List.mem_append]
      rcases hn with hna | hnb
      · exact Or.inr (hmand1 n hna)
      · exact Or.inl (hmand2 n hnb)
    · rw [List.append_assoc]; exact hk2
  | alt a b iha ihb =>
    intro hnd s k g res h
    simp only [grpNums] at hnd
    obtain ⟨hnda, hndb, hdis⟩ := List.nodup_append.mp hnd
    simp only [reMatch] at h
    cases hA : reMatch a s k g with
    | some r2 =>
      rw [hA] at h
      have hr : r2 = res := by simpa using h
      subst hr
      obtain ⟨u, s1, gn, hs, hl, hmem, hspec, hmand, hk⟩ :=
        iha hnda s k g r2 hA
      refine ⟨u, s1, gn, hs, ReLang.altL hl, ?_, ?_, ?_, hk⟩
      · intro p hp
        simp only [grpNums, List.mem_append]
        exact Or.inl (hmem p hp)
      · intro p hp sub hsub
        simp only [groupSub] at hsub
        have hin := hmem p hp
        cases hga : groupSub a p.1 with
        | none =>
          have := groupSub_isSome_of_mem a p.1 hin
          rw [hga] at this; simp at this
        | some x =>
          rw [hga] at hsub
          have hx : x = sub := by simpa using hsub
          rw [← hx]
          exact hspec p hp x hga
      · intro n hn
        simp only [mandGrps] at hn
        exact absurd hn (List.not_mem_nil n)
    | none =>
      rw [hA] at h
      obtain ⟨u, s1, gn, hs, hl, hmem, hspec, hmand, hk⟩ :=
        ihb hndb s k g res h
      refine ⟨u, s1, gn, hs, ReLang.altR hl, ?_, ?_, ?_, hk⟩
      · intro p hp
        simp only [grpNums, List.mem_append]
        exact Or.inr (hmem p hp)
      · intro p hp sub hsub
        simp only [groupSub] at hsub
        have hnotina : p.1 ∉ grpNums a := fun hin => hdis hin (hmem p hp)
        rw [groupSub_none_of_not_mem a p.1 hnotina] at hsub
        exact hspec p hp sub hsub
      · intro n hn
        simp only [mandGrps] at hn
        exact absurd hn (List.not_mem_nil n)
  | star cc =>
    intro hnd s k g res h
    simp only [reMatch] at h
    obtain ⟨u, s1, hs, hall, hk⟩ := starRun_sound (clsMem cc) s _ res h
    exact ⟨u, s1, [], hs, ReLang.star hall, by simp, by simp,
      by simp [mandGrps], by simpa using hk⟩
  | plus cc =>
    intro hnd s k g res h
    cases s with
    | nil => exact absurd h (by simp [reMatch])
    | cons c1 s1 =>
      simp only [reMatch] at h
      split at h
      · next hcond =>
        obtain ⟨u, s2, hs, hall, hk⟩ := starRun_sound (clsMem cc) s1 _ res h
        refine ⟨c1 :: u, s2, [], by simp [hs], ?_, by simp, by simp,
          by simp [mandGrps], by simpa using hk⟩
        refine ReLang.plus (by simp) ?_
        intro c2 hc2
        rcases List.mem_cons.mp hc2 with h1 | h1
        · rw [h1]; exact hcond
        · exact hall c2 h1
      · exact absurd h (by simp)
  | opt a iha =>
    intro hnd s k g res h
    simp only [grpNums] at hnd
    simp only [reMatch] at h
    cases hA : reMatch a s k g with
    | some r2 =>
      rw [hA] at h
      have hr : r2 = res := by simpa using h
      subst hr
      obtain ⟨u, s1, gn, hs, hl, hmem, hspec, hmand, hk⟩ := iha hnd s k g r2 hA
      refine ⟨u, s1, gn, hs, ReLang.optS hl, ?_, ?_, ?_, hk⟩
      · intro p hp; simpa [grpNums] using hmem p hp
      · intro p hp sub hsub
        simp only [groupSub] at hsub
        exact hspec p hp sub hsub
      · intro n hn
        simp only [mandGrps] at hn
        exact absurd hn (List.not_mem_nil n)
    | none =>
      rw [hA] at h
      exact ⟨[], s, [], rfl, ReLang.optN, by simp, by simp,
        by simp [mandGrps], by simpa using h⟩
  | grp n a iha =>
    intro hnd s k g res h
    simp only [grpNums] at hnd
    obtain ⟨hnotin, hnda⟩ := List.nodup_cons.mp hnd
    simp only [reMatch] at h
    obtain ⟨u, s1, gn1, hs, hl, hmem, hspec, hmand, hk⟩ := iha hnda s _ g res h
    replace hk :
        k s1 ((n, s.take (s.length - s1.length)) :: (gn1 ++ g)) = some res :=
      hk
    have htake : s.take (s.length - s1.length) = u := by
      rw [hs]
      have hlen : (u ++ s1).length - s1.length = u.length := by simp
      rw [hlen]
      exact List.take_left u s1
    rw [htake] at hk
    refine ⟨u, s1, (n, u) :: gn1, hs, ReLang.grp hl, ?_, ?_, ?_, ?_⟩
    · intro p hp
      simp only [grpNums, List.mem_cons]
      rcases List.mem_cons.mp hp with heq | h2
      · exact Or.inl (by rw [heq])
      · exact Or.inr (hmem p h2)
    · intro p hp sub hsub
      rcases List.mem_cons.mp hp with heq | h2
      · subst heq
        simp only [groupSub, if_pos rfl] at hsub
        have hx : a = sub := by simpa using hsub
        rw [← hx]
        exact hl
      · have hin := hmem p h2
        have hne : n ≠ p.1 := fun he => hnotin (he ▸ hin)
        simp only [groupSub, if_neg hne] at hsub
        exact hspec p h2 sub hsub
    · intro m hm
      simp only [mandGrps, List.mem_cons] at hm
      simp only [List.map_cons, List.mem_cons]
      rcases hm with rfl | h2
      · exact Or.inl rfl
      · exact Or.inr (hmand m h2)
    · rw [List.cons_append]
      exact hk

lemma reSearch_sound (r : RE) (hnd : (grpNums r).Nodup) :
    ∀ (s : List Char) (g : GroupMap), reSearch r s = some g →
      (∀ p ∈ g, ∀ sub, groupSub r p.1 = some sub → ReLang sub p.2) ∧
      (∀ n ∈ mandGrps r, n ∈ g.map Prod.fst) := by
  intro s
  induction s with
  | nil =>
    intro g h
    rw [reSearch] at h
    cases hm : reMatch r [] (fun _ g => some g) [] with
    | some g2 =>
      rw [hm] at h
      have hg2 : g2 = g := by simpa using h
      subst hg2
      obtain ⟨u, s1, gn, _, _, _, hspec, hmand, hk⟩ :=
        reMatch_sound r hnd [] _ [] g2 hm
      have hg : g2 = gn := by
        have := hk
        simp only [List.append_nil] at this
        exact (Option.some.inj this).symm
      subst hg
      exact ⟨hspec, hmand⟩
    | none => rw [hm] at h; exact absurd h (by simp)
  | cons c cs ih =>
    intro g h
    rw [reSearch] at h
    cases hm : reMatch r (c :: cs) (fun _ g => some g) [] with
    | some g2 =>
      rw [hm] at h
      have hg2 : g2 = g := by simpa using h
      subst hg2
      obtain ⟨u, s1, gn, _, _, _, hspec, hmand, hk⟩ :=
        reMatch_sound r hnd (c :: cs) _ [] g2 hm
      have hg : g2 = gn := by
        have := hk
        simp only [List.append_nil] at this
        exact (Option.some.inj this).symm
      subst hg
      exact ⟨hspec, hmand⟩
    | none => rw [hm] at h; exact ih g h

/-! ## Language facts about concrete subpatterns -/

lemma ReLang_lits_aux : ∀ (cs w : List Char),
    ReLang (cs.foldr (fun c r => RE.seq (.lit c) r) .eps) w →
    w.map lowerChar = cs.map lowerChar := by
  intro cs
  induction cs with
  | nil =>
    intro w h
    cases h
    rfl
  | cons c cs ih =>
    intro w h
    cases h with
    | seq hu hv =>
      cases hu with
      | lit hc =>
        simp only [List.cons_append, List.nil_append, List.map_cons]
        rw [hc, ih _ hv]

lemma ReLang_lits (t : String) (w : List Char) (h : ReLang (lits t) w) :
    pyLower w = pyLower t.data :=
  ReLang_lits_aux t.data w h

/-- Group 1 of the PAM sudo-session pattern always captures a
case-insensitive variant of the literal word `opened` or `closed`. -/
lemma pam_group1 {msg : List Char} {g : GroupMap}
    (h : reSearch P_sudo2 msg = some g) :
    pyLower (groupVal g 1) = "opened".data ∨
    pyLower (groupVal g 1) = "closed".data := by
  have hnd : (grpNums P_sudo2).Nodup := by decide
  obtain ⟨hspec, hmand⟩ := reSearch_sound P_sudo2 hnd msg g h
  have hm1 : 1 ∈ g.map Prod.fst := hmand 1 (by decide)
  cases hf : g.find? (fun p => p.1 == 1) with
  | none =>
    obtain ⟨p, hp, hp1⟩ := List.mem_map.mp hm1
    have := List.find?_eq_none.mp hf p hp
    simp [hp1] at this
  | some p =>
    have hpmem := List.mem_of_find?_eq_some hf
    have hp1 : p.1 = 1 := by simpa using List.find?_some hf
    have hsub : groupSub P_sudo2 p.1 =
        some (.alt (lits "opened") (lits "closed")) := by
      rw [hp1]; decide
    have hrel := hspec p hpmem _ hsub
    have hgv : groupVal g 1 = p.2 := by rw [groupVal, hf]
    rw [hgv]
    cases hrel with
    | altL hl =>
      left
      rw [ReLang_lits "opened" p.2 hl]
      decide
    | altR hl =>
      right
      rw [ReLang_lits "closed" p.2 hl]
      decide

/-- Group 2 of the unauthorized-sudo pattern (the captured COMMAND text)
is never empty. -/
lemma bf3_group2 {msg : List Char} {g : GroupMap}
    (h : reSearch P_bf3 msg = some g) : groupVal g 2 ≠ [] := by
  have hnd : (grpNums P_bf3).Nodup := by decide
  obtain ⟨hspec, hmand⟩ := reSearch_sound P_bf3 hnd msg g h
  have hm2 : 2 ∈ g.map Prod.fst := hmand 2 (by decide)
  cases hf : g.find? (fun p => p.1 == 2) with
  | none =>
    obtain ⟨p, hp, hp2⟩ := List.mem_map.mp hm2
    have := List.find?_eq_none.mp hf p hp
    simp [hp2] at this
  | some p =>
    have hpmem := List.mem_of_find?_eq_some hf
    have hp2 : p.1 = 2 := by simpa using List.find?_some hf
    have hsub : groupSub P_bf3 p.1 = some (.plus .dot) := by
      rw [hp2]; decide
    have hrel := hspec p hpmem _ hsub
    have hgv : groupVal g 2 = p.2 := by rw [groupVal, hf]
    rw [hgv]
    cases hrel with
    | plus hne hall => exact hne

/-! ## Single-event accumulator computations -/

lemma ip_failures_single (e : SecurityEvent) (ip : String)
    (hr : e.rule = .BRUTE_FORCE) (hm : e.metadata ≠ [])
    (hget : mget e.metadata "source_ip" = some ip) (hne : ip ≠ "") :
    ip_failures [e] = [(ip, 1)] := by
  simp only [ip_failures, List.foldl_cons, List.foldl_nil, hget]
  rw [if_pos ⟨hr, hm⟩, if_pos hne]
  rfl

lemma user_sudo_attempts_single (e : SecurityEvent) (u : String)
    (hr : e.rule = .SUDO) (hm : e.metadata ≠ [])
    (hget : mget e.metadata "user" = some u) (hne : u ≠ "") :
    user_sudo_attempts [e] = [(u, 1)] := by
  simp only [user_sudo_attempts, List.foldl_cons, List.foldl_nil, hget]
  rw [if_pos ⟨hr, hm⟩, if_pos hne]
  rfl

/-- The message-body field of a line (fourth field of the split). -/
def msg_field (line : String) : List Char :=
  (pysplit sepChars 3 (pyStrip line.data)).getD 3 []

lemma msg_field_eq {line : String} {ts vm src msg : List Char}
    (hsplit : pysplit sepChars 3 (pyStrip line.data) = [ts, vm, src, msg]) :
    msg_field line = msg := by
  rw [msg_field, hsplit]
  rfl

lemma groupStrs_two (g : GroupMap) :
    groupStrs 2 g = [String.mk (groupVal g 1), String.mk (groupVal g 2)] := by
  rw [groupStrs]
  have hr2 : List.range 2 = [0, 1] := by decide
  rw [hr2]
  rfl

/-! ## Claim C9: the PAM sudo-session pattern stores the session action
word under the `user` metadata key -/

/-- A body matching the PAM pattern but also the first sudo pattern,
which is tried earlier. -/
def c9_line : String :=
  "2024-01-01 00:00:00 | vm1 | auth.log | sudo: pam_unix(sudo:session): session opened for user root by sudo: alice : TTY=pts0 USER=root COMMAND=/bin/ls"

/-- Counterexample to C9 as stated: this line's body matches the PAM
sudo-session pattern, yet the produced event's `user` metadata holds the
user name captured by the earlier-tried first sudo pattern, not the
session word. -/
theorem security_c9_counterexample :
    (reSearch P_sudo2 (msg_field c9_line)).isSome ∧
    (parse_log_line now0 c9_line).map (fun e => mget e.metadata "user") =
      some (some "alice") ∧
    ("alice" : String) ≠ "opened" ∧ ("alice" : String) ≠ "closed" := by
  decide

/-- Claim C9, amended: for every line whose body matches the PAM
sudo-session pattern and matches none of the patterns tried before it
(egress, the three brute-force patterns, and the first sudo pattern),
the event's `user` metadata holds the pattern's first captured group — a
case-insensitive variant of the literal word `opened` or `closed`, not
the user name — no `command` key is set, and the analyzer tallies the
event under that literal key in its per-user sudo attempt count. -/
theorem security_c9 : ∀ (now : PyDateTime) (line : String) (e : SecurityEvent),
    parse_log_line now line = some e →
    reSearch P_egress (msg_field line) = none →
    reSearch P_bf1 (msg_field line) = none →
    reSearch P_bf2 (msg_field line) = none →
    reSearch P_bf3 (msg_field line) = none →
    reSearch P_sudo1 (msg_field line) = none →
    ∀ g, reSearch P_sudo2 (msg_field line) = some g →
    e.rule = .SUDO ∧
    mget e.metadata "user" = some (String.mk (groupVal g 1)) ∧
    mget e.metadata "command" = none ∧
    (pyLower (groupVal g 1) = "opened".data ∨
      pyLower (groupVal g 1) = "closed".data) ∧
    user_sudo_attempts [e] = [(String.mk (groupVal g 1), 1)] := by
  intro now line e h hEg hB1 hB2 hB3 hS1 g hS2
  obtain ⟨ts, vm, src, msg, rule, gs, hsplit, hmat, he⟩ := parse_some_inv h
  rw [msg_field_eq hsplit] at hEg hB1 hB2 hB3 hS1 hS2
  have hmat2 : registry_match msg = some (.SUDO, groupStrs 2 g) := by
    rw [registry_match_char]
    simp only [hEg, hB1, hB2, hB3, hS1, hS2]
  rw [hmat2] at hmat
  simp only [Option.some.injEq, Prod.mk.injEq] at hmat
  obtain ⟨hrule, hgs⟩ := hmat
  have hoc := pam_group1 hS2
  have hne : String.mk (groupVal g 1) ≠ "" := by
    intro hc
    have hd := congrArg String.data hc
    simp at hd
    rcases hoc with h1 | h1 <;> rw [hd] at h1 <;> exact absurd h1 (by decide)
  have hmeta : e.metadata = [("user", String.mk (groupVal g 1))] := by
    rw [he]
    show extract_metadata rule gs = _
    rw [← hrule, ← hgs, groupStrs_two]
    rfl
  have hrule2 : e.rule = .SUDO := by rw [he]; exact hrule.symm
  refine ⟨hrule2, ?_, ?_, hoc, ?_⟩
  · rw [hmeta]
    exact mget_cons_eq _ _ _ _ (by decide)
  · rw [hmeta, mget_cons_ne _ _ _ _ (by decide)]
    rfl
  · refine user_sudo_attempts_single e _ hrule2 (by rw [hmeta]; simp) ?_ hne
    rw [hmeta]
    exact mget_cons_eq _ _ _ _ (by decide)

/-- The canonical PAM session line and its event (shared fixture). -/
def pam_line : String :=
  "2024-01-01 00:00:00 | vm1 | auth.log | sudo: pam_unix(sudo:session): session opened for user root by alice(uid=0)"

def ev_pam : SecurityEvent :=
  { vm_name := "vm1", timestamp := ⟨2024, 1, 1, 0, 0, 0⟩,
    source := "auth.log", message := pam_line,
    severity := .HIGH, rule := .SUDO,
    metadata := [("user", "opened")] }

/-- The group map the matcher records for the PAM body of `pam_line`. -/
def g9 : GroupMap := [(2, "root".data), (1, "opened".data)]

/-- Witness for the amended C9 on the canonical PAM line. -/
theorem security_c9_witness :
    ev_pam.rule = .SUDO ∧
    mget ev_pam.metadata "user" = some (String.mk (groupVal g9 1)) ∧
    mget ev_pam.metadata "command" = none ∧
    (pyLower (groupVal g9 1) = "opened".data ∨
      pyLower (groupVal g9 1) = "closed".data) ∧
    user_sudo_attempts [ev_pam] = [(String.mk (groupVal g9 1), 1)] :=
  security_c9 now0 pam_line ev_pam (by decide) (by decide) (by decide)
    (by decide) (by decide) (by decide) g9 (by decide)

/-! ## Claim C10: the unauthorized-sudo pattern stores the captured
command string under the `source_ip` metadata key -/

/-- A body matching the unauthorized-sudo pattern but also the first
brute-force pattern, which is tried earlier. -/
def c10_line : String :=
  "2024-01-01 00:00:00 | vm1 | auth.log | sshd[99]: Failed password for root from 10.0.0.7 sudo: user NOT in sudoers ; USER=root ; COMMAND=/bin/ls"

/-- Counterexample to C10 as stated: this line's body matches the
unauthorized-sudo pattern (whose captured command is `/bin/ls`), yet the
produced event's `source_ip` holds the IP captured by the earlier-tried
first brute-force pattern, not the command string. -/
theorem security_c10_counterexample :
    (reSearch P_bf3 (msg_field c10_line)).isSome ∧
    (groupStrs 2 ((reSearch P_bf3 (msg_field c10_line)).getD [])).getD 1 "" =
      "/bin/ls" ∧
    (parse_log_line now0 c10_line).map
      (fun e => mget e.metadata "source_ip") = some (some "10.0.0.7") ∧
    ("10.0.0.7" : String) ≠ "/bin/ls" := by
  decide

/-- Claim C10, amended: for every line whose body matches the
unauthorized-sudo brute-force pattern and matches none of the patterns
tried before it (egress and the two SSH brute-force patterns), the
event's `source_ip` metadata holds the pattern's second captured group —
the attempted command string, which is non-empty but need not be an IP
address — and the analyzer counts that string as an IP in its per-IP
brute-force tally. -/
theorem security_c10 : ∀ (now : PyDateTime) (line : String)
    (e : SecurityEvent),
    parse_log_line now line = some e →
    reSearch P_egress (msg_field line) = none →
    reSearch P_bf1 (msg_field line) = none →
    reSearch P_bf2 (msg_field line) = none →
    ∀ g, reSearch P_bf3 (msg_field line) = some g →
    e.rule = .BRUTE_FORCE ∧
    mget e.metadata "source_ip" = some (String.mk (groupVal g 2)) ∧
    mget e.metadata "username" = some (String.mk (groupVal g 1)) ∧
    String.mk (groupVal g 2) ≠ "" ∧
    ip_failures [e] = [(String.mk (groupVal g 2), 1)] := by
  intro now line e h hEg hB1 hB2 g hB3
  obtain ⟨ts, vm, src, msg, rule, gs, hsplit, hmat, he⟩ := parse_some_inv h
  rw [msg_field_eq hsplit] at hEg hB1 hB2 hB3
  have hmat2 : registry_match msg = some (.BRUTE_FORCE, groupStrs 2 g) := by
    rw [registry_match_char]
    simp only [hEg, hB1, hB2, hB3]
  rw [hmat2] at hmat
  simp only [Option.some.injEq, Prod.mk.injEq] at hmat
  obtain ⟨hrule, hgs⟩ := hmat
  have hne : String.mk (groupVal g 2) ≠ "" := by
    intro hc
    have hd := congrArg String.data hc
    simp at hd
    exact bf3_group2 hB3 hd
  have hmeta : e.metadata =
      [("username", String.mk (groupVal g 1)),
       ("source_ip", String.mk (groupVal g 2))] := by
    rw [he]
    show extract_metadata rule gs = _
    rw [← hrule, ← hgs, groupStrs_two]
    rfl
  have hrule2 : e.rule = .BRUTE_FORCE := by rw [he]; exact hrule.symm
  have hget : mget e.metadata "source_ip" = some (String.mk (groupVal g 2)) := by
    rw [hmeta, mget_cons_ne _ _ _ _ (by decide)]
    exact mget_cons_eq _ _ _ _ (by decide)
  refine ⟨hrule2, hget, ?_, hne, ?_⟩
  · rw [hmeta]
    exact mget_cons_eq _ _ _ _ (by decide)
  · exact ip_failures_single e _ hrule2 (by rw [hmeta]; simp) hget hne

/-- The canonical unauthorized-sudo line and its event (shared fixture). -/
def sudoers_line : String :=
  "2024-01-01 00:00:00 | vm1 | auth.log | sudo:  baduser : user NOT in sudoers ; TTY=pts/0 ; PWD=/home ; USER=root ; COMMAND=/usr/bin/vim /etc/shadow"

def ev_sudoers : SecurityEvent :=
  { vm_name := "vm1", timestamp := ⟨2024, 1, 1, 0, 0, 0⟩,
    source := "auth.log", message := sudoers_line,
    severity := .HIGH, rule := .BRUTE_FORCE,
    metadata := [("username", "root"),
      ("source_ip", "/usr/bin/vim /etc/shadow")] }

/-- The group map recorded for the body of `sudoers_line`. -/
def g10 : GroupMap :=
  [(2, "/usr/bin/vim /etc/shadow".data), (1, "root".data)]

/-- Witness for the amended C10 on the canonical unauthorized-sudo line:
the command string is tallied as an "IP". -/
theorem security_c10_witness :
    ev_sudoers.rule = .BRUTE_FORCE ∧
    mget ev_sudoers.metadata "source_ip" =
      some (String.mk (groupVal g10 2)) ∧
    mget ev_sudoers.metadata "username" =
      some (String.mk (groupVal g10 1)) ∧
    String.mk (groupVal g10 2) ≠ "" ∧
    ip_failures [ev_sudoers] = [(String.mk (groupVal g10 2), 1)] :=
  security_c10 now0 sudoers_line ev_sudoers (by decide) (by decide)
    (by decide) (by decide) g10 (by decide)

/-! ## Claim C1: first-match order of the pattern registry -/

/-- The nine patterns flattened in evaluation order: all rules in fixed
order, all patterns of a rule in declaration order. -/
def flatPatterns : List (SecurityRule × RE × Nat) :=
  [(.EGRESS, P_egress, 5),
   (.BRUTE_FORCE, P_bf1, 2), (.BRUTE_FORCE, P_bf2, 2),
   (.BRUTE_FORCE, P_bf3, 2),
   (.SUDO, P_sudo1, 3), (.SUDO, P_sudo2, 2), (.SUDO, P_sudo3, 2),
   (.OOM_KILL, P_oom1, 2), (.OOM_KILL, P_oom2, 1)]

/-- First hit of an ordered pattern list. -/
def firstHit (msg : List Char) :
    List (SecurityRule × RE × Nat) → Option (SecurityRule × List String)
  | [] => none
  | (r, p, n) :: rest =>
    match reSearch p msg with
    | some g => some (r, groupStrs n g)
    | none => firstHit msg rest

/-- A body matching an egress pattern, a brute-force pattern and a sudo
pattern all at once. -/
def c1_body : List Char :=
  "kernel: egress (7) pid 42 read /tmp/x write /tmp/y uid 0 gid 0 sshd[5]: Failed password for root from 1.2.3.4 sudo: alice : TTY=pts0 USER=root COMMAND=/bin/ls".data

set_option maxRecDepth 4000 in
/-- Counterexample to C1 as stated: this body matches both a brute-force
pattern and a sudo pattern, yet it is classified `egress`, not
`brute_force`, because an egress pattern also matches and egress is tried
first. -/
theorem security_c1_counterexample :
    (reSearch P_bf1 c1_body).isSome ∧ (reSearch P_sudo1 c1_body).isSome ∧
    (registry_match c1_body).map Prod.fst = some .EGRESS ∧
    (registry_match c1_body).map Prod.fst ≠ some .BRUTE_FORCE := by
  decide

/-- Claim C1, amended: the registry returns the first rule in the fixed
order egress, brute_force, sudo, oom_kill whose first pattern in
declaration order matches (formalized as a first-hit scan of the
flattened declaration-order pattern list); consequently a body matching a
brute-force pattern is never classified `sudo`, and it is classified
`brute_force` provided no egress pattern also matches (egress being the
one rule tried earlier). -/
theorem security_c1 :
    (∀ msg : List Char, registry_match msg = firstHit msg flatPatterns) ∧
    (∀ msg : List Char,
      (reSearch P_bf1 msg).isSome ∨ (reSearch P_bf2 msg).isSome ∨
        (reSearch P_bf3 msg).isSome →
      (∀ gs, registry_match msg ≠ some (.SUDO, gs)) ∧
      (reSearch P_egress msg = none →
        ∃ gs, registry_match msg = some (.BRUTE_FORCE, gs))) := by
  constructor
  · intro msg
    rw [registry_match_char]
    simp only [firstHit, flatPatterns]
  · intro msg hbf
    cases h0 : reSearch P_egress msg with
    | some g =>
      constructor
      · intro gs hc
        rw [registry_match_char] at hc
        simp [h0] at hc
      · intro h0n
        exact absurd h0n (by simp)
    | none =>
      cases h1 : reSearch P_bf1 msg with
      | some g =>
        refine ⟨?_, fun _ => ⟨groupStrs 2 g, ?_⟩⟩
        · intro gs hc
          rw [registry_match_char] at hc
          simp [h0, h1] at hc
        · rw [registry_match_char]
          simp [h0, h1]
      | none =>
        cases h2 : reSearch P_bf2 msg with
        | some g =>
          refine ⟨?_, fun _ => ⟨groupStrs 2 g, ?_⟩⟩
          · intro gs hc
            rw [registry_match_char] at hc
            simp [h0, h1, h2] at hc
          · rw [registry_match_char]
            simp [h0, h1, h2]
        | none =>
          cases h3 : reSearch P_bf3 msg with
          | some g =>
            refine ⟨?_, fun _ => ⟨groupStrs 2 g, ?_⟩⟩
            · intro gs hc
              rw [registry_match_char] at hc
              simp [h0, h1, h2, h3] at hc
            · rw [registry_match_char]
              simp [h0, h1, h2, h3]
          | none =>
            exfalso
            rcases hbf with hb | hb | hb <;> simp_all

/-- Witness for the amended C1 on the canonical SSH brute-force body:
tried against an otherwise non-matching body, the result is brute_force
and never sudo. -/
theorem security_c1_witness :
    (∀ gs, registry_match "sshd[123]: Failed password for root from 10.0.0.5".data ≠
      some (.SUDO, gs)) ∧
    (reSearch P_egress "sshd[123]: Failed password for root from 10.0.0.5".data = none →
      ∃ gs, registry_match "sshd[123]: Failed password for root from 10.0.0.5".data =
        some (.BRUTE_FORCE, gs)) :=
  security_c1.2 "sshd[123]: Failed password for root from 10.0.0.5".data
    (by decide)
